import Mathlib

/-!
Verification development for the hyprAgent repository.

Shallow embedding conventions:
* Go strings are modelled as `List Char` (`Str`); byte-level reasoning is
  char-level here since all relevant literals are ASCII.
* `path/filepath` functions (Unix build) are re-implemented faithfully:
  `Clean`, `Join`, `Base`, `Rel`, `IsAbs`, and the deprecated `HasPrefix`
  (which on Unix is a plain `strings.HasPrefix`).
* Fallible Go calls return `Except Str _` / `Option _`; the filesystem is a
  map from (resolved absolute) path to content.
-/

abbrev Str := List Char

namespace HyprAgent

/-- Go `unicode.IsSpace` restricted to ASCII (the only characters that occur
in the paths, patches and config lines these claims are about). -/
def goIsSpace (c : Char) : Bool :=
  c = ' ' || c = '\t' || c = '\n' || (c = (Char.ofNat 11)) || (c = (Char.ofNat 12)) || c = '\r'

/-- Go `strings.TrimSpace` (ASCII fragment): drop spaces at both ends. -/
def goTrimSpace (s : Str) : Str :=
  (s.dropWhile goIsSpace).reverse.dropWhile goIsSpace |>.reverse

/-- Go `strings.HasPrefix s pre` (and Unix `filepath.HasPrefix`): plain
string-prefix test. -/
def goHasPref (s pre : Str) : Bool :=
  pre.isPrefixOf s

/-- Go `strings.HasSuffix s suf`. -/
def goHasSuffix (s suf : Str) : Bool :=
  suf.isSuffixOf s

/-- Go `strings.Contains s sub`: `sub` occurs contiguously in `s`. -/
def goContains : Str → Str → Bool
  | [], sub => sub.isPrefixOf []
  | c :: rest, sub => sub.isPrefixOf (c :: rest) || goContains rest sub

/-- Split a char list at every occurrence of `sep` (Go `strings.Split`).
Always returns at least one (possibly empty) part. -/
def splitSep (sep : Char) : Str → List Str
  | [] => [[]]
  | c :: rest =>
    if c = sep then [] :: splitSep sep rest
    else
      match splitSep sep rest with
      | [] => [[c]]
      | p :: ps => (c :: p) :: ps

/-- Join parts with a separator char (inverse of `splitSep`). -/
def joinSep (sep : Char) : List Str → Str
  | [] => []
  | [p] => p
  | p :: ps => p ++ sep :: joinSep sep ps

/-- Go `strings.SplitN s "=" 2`: split at the first `sep`; `none` when `sep`
does not occur (Go then returns the one-element slice `[s]`). -/
def splitOnceAt (sep : Char) : Str → Option (Str × Str)
  | [] => none
  | c :: rest =>
    if c = sep then some ([], rest)
    else
      match splitOnceAt sep rest with
      | none => none
      | some (a, b) => some (c :: a, b)

end HyprAgent

namespace HyprAgent

/-! ### `path/filepath` (Unix) -/

/-- Go `filepath.IsAbs` on Unix: the path starts with a slash. -/
def isAbs (p : Str) : Bool :=
  match p with
  | c :: _ => c = '/'
  | [] => false

/-- One step of Go `filepath.Clean`'s element processing. The stack holds the
retained path elements in reverse order. -/
def cleanStep (rooted : Bool) (stack : List Str) (seg : Str) : List Str :=
  if seg = [] || seg = ['.'] then stack
  else if seg = ['.', '.'] then
    match stack with
    | [] => if rooted then [] else [seg]
    | top :: rest => if top = ['.', '.'] then seg :: stack else rest
  else seg :: stack

/-- Render a `cleanStep` stack back into a path. -/
def renderPath (rooted : Bool) (stack : List Str) : Str :=
  if rooted then '/' :: joinSep '/' stack.reverse
  else if stack = [] then ['.']
  else joinSep '/' stack.reverse

/-- Go `filepath.Clean` (Unix): lexical normalisation of `.`, `..` and
repeated separators. -/
def goClean (p : Str) : Str :=
  renderPath (isAbs p) ((splitSep '/' p).foldl (cleanStep (isAbs p)) [])

/-- Go `filepath.Join` (Unix): join the non-empty elements with `/` and
`Clean` the result; all-empty input yields the empty path. -/
def goJoin (parts : List Str) : Str :=
  match parts.filter (· ≠ []) with
  | [] => []
  | ne => goClean (joinSep '/' ne)

/-- Go `filepath.Base` (Unix). -/
def goBase (p : Str) : Str :=
  if p = [] then ['.']
  else
    match (p.reverse.dropWhile (· = '/')).reverse with
    | [] => ['/']
    | stripped =>
      match (splitSep '/' stripped).getLast? with
      | some seg => seg
      | none => stripped

/-- Path elements of a cleaned path: strip the leading slash of a rooted
path (`"/"` has no elements), treat `"."` as empty, else split at `/`. -/
def absSegs (p : Str) : List Str :=
  if isAbs p then
    match p with
    | _ :: rest => if rest = [] then [] else splitSep '/' rest
    | [] => []
  else if p = ['.'] then [] else splitSep '/' p

/-- Core of Go `filepath.Rel` after both paths are cleaned and stripped of
their root: peel the common leading elements, then climb with `..`. -/
def relCore : List Str → List Str → Option Str
  | [], [] => some ['.']
  | [], ts => some (joinSep '/' ts)
  | b :: bs, [] =>
    if b = ['.', '.'] then none
    else some (joinSep '/' (List.replicate (bs.length + 1) ['.', '.']))
  | b :: bs, t :: ts =>
    if b = t then relCore bs ts
    else if b = ['.', '.'] then none
    else some (joinSep '/' (List.replicate (bs.length + 1) ['.', '.'] ++ t :: ts))

/-- Go `filepath.Rel` (Unix), for volume-free paths: `Clean` both, require
equal rootedness, then compare element-wise. -/
def goRel (basep targp : Str) : Option Str :=
  let base := goClean basep
  let targ := goClean targp
  if base = targ then some ['.']
  else if isAbs base ≠ isAbs targ then none
  else relCore (absSegs base) (absSegs targ)

end HyprAgent

namespace HyprAgent

/-! ### Security gate (`internal/configuration/config.go`) -/

/-- The three backend variants of `ConfigSourceType` (the tools only ever
pass these three constants to `IsPathAllowed`). -/
inductive ConfigSourceType
  | native
  | hyde
  | omarchy
deriving DecidableEq, Repr

/-- Per-variant `BackendSecurity` policy. -/
structure BackendSecurity where
  allowedDirs : List Str
  allowedFiles : List Str

def sDot : Str := ".".data
def sDotScripts : Str := "./scripts".data
def sDotThemes : Str := "./themes".data
def sHyprlandConf : Str := "hyprland.conf".data
def sConfigSeg : Str := ".config".data
def sHyprSeg : Str := "hypr".data

/-- `DefaultConfig().Security.Native`. -/
def nativeSec : BackendSecurity where
  allowedDirs := [sDot, sDotScripts, sDotThemes]
  allowedFiles :=
    [sHyprlandConf, "hyprpaper.conf".data, "hypridle.conf".data, "hyprlock.conf".data,
     "keybindings.conf".data, "windowrules.conf".data, "monitors.conf".data,
     "workspaces.conf".data, "animations.conf".data, "userprefs.conf".data]

/-- `DefaultConfig().Security.Hyde`. -/
def hydeSec : BackendSecurity where
  allowedDirs :=
    [sDot, "./Configs".data, sDotScripts, sDotThemes, "./animations".data,
     "./shaders".data, "./hyprlock".data, "./workflows".data]
  allowedFiles :=
    [sHyprlandConf, "hyde.conf".data, "hypridle.conf".data, "hyprlock.conf".data,
     "keybindings.conf".data, "windowrules.conf".data, "monitors.conf".data,
     "workspaces.conf".data, "workflows.conf".data, "animations.conf".data,
     "shaders.conf".data, "userprefs.conf".data, "pyprland.toml".data]

/-- `DefaultConfig().Security.Omarchy`. -/
def omarchySec : BackendSecurity where
  allowedDirs := [sDot, "./omarchy".data, sDotScripts, sDotThemes]
  allowedFiles :=
    [sHyprlandConf, "keybindings.conf".data, "windowrules.conf".data,
     "monitors.conf".data, "workspaces.conf".data]

/-- The `switch backendType` dispatch at the top of `IsPathAllowed`, over the
default security configuration. -/
def securityFor : ConfigSourceType → BackendSecurity
  | .native => nativeSec
  | .hyde => hydeSec
  | .omarchy => omarchySec

/-- Result of `IsPathAllowed`: `(true, nil)` or `(false, err)`. -/
inductive PathDecision
  | allowed
  | denied (reason : Str)
deriving DecidableEq, Repr

/-- The fixed configuration root `filepath.Join(home, ".config", "hypr")`. -/
def configRoot (home : Str) : Str :=
  goJoin [home, sConfigSeg, sHyprSeg]

/-- The absolute, cleaned form of the target that `IsPathAllowed` computes:
an absolute argument is `Clean`ed, a relative one is rooted at `configRoot`. -/
def authResolve (home targetPath : Str) : Str :=
  if isAbs targetPath then goClean targetPath
  else goClean (goJoin [configRoot home, targetPath])

def msgOutside (targetPath : Str) : Str :=
  "path ".data ++ targetPath ++ " is outside Hyprland config directory".data

def msgRelFailed : Str := "cannot compute relative path".data

def msgNotAllowed (relPath : Str) : Str :=
  "path ".data ++ relPath ++ " is not in the allowed list".data

/-- `Config.IsPathAllowed` (config.go:154-213), with the user's home
directory passed explicitly (`os.UserHomeDir`).  Checks, in order: the
(string-)prefix gate via the deprecated `filepath.HasPrefix`, the
allowed-files list (relative path or basename match), then the allowed
directories. -/
def isPathAllowed (sec : BackendSecurity) (home targetPath : Str) : PathDecision :=
  if ¬ goHasPref (authResolve home targetPath) (configRoot home) then
    .denied (msgOutside targetPath)
  else
    match goRel (configRoot home) (authResolve home targetPath) with
    | none => .denied msgRelFailed
    | some relPath =>
      if sec.allowedFiles.any
          (fun f => relPath = f || goBase (authResolve home targetPath) = f) then .allowed
      else if sec.allowedDirs.any (fun d =>
          authResolve home targetPath = goClean (goJoin [configRoot home, d]) ||
          goHasPref (authResolve home targetPath)
            (goClean (goJoin [configRoot home, d]) ++ ['/'])) then .allowed
      else .denied (msgNotAllowed relPath)

/-- Modelled from the spec: "the normalized path does not have the
configuration root as a prefix (defends against traversal out of the
sandbox)" — genuine path containment, i.e. the normalized form equals the
root or lies underneath it as a directory.  This is the property the claims
assert of the gate; it is compared against the `isPathAllowed` code above. -/
def liesWithinRoot (root p : Str) : Bool :=
  p = root || goHasPref p (root ++ ['/'])

end HyprAgent

namespace HyprAgent

/-! ### Configuration IR and parser (`internal/configuration`, NativeBackend.Parse / IR.String) -/

/-- `LineType` from the IR module. -/
inductive LineType
  | empty
  | comment
  | variable
  | keyValue
  | sectionStart
  | sectionEnd
  | unknown
deriving DecidableEq, Repr

/-- `ConfigLine`: line number, raw original text, classification, optional
key/value (zero values `""` when unset). -/
structure ConfigLine where
  lineNum : Nat
  raw : Str
  type : LineType
  key : Str
  value : Str
deriving DecidableEq, Repr

/-- `bufio.ScanLines`' `dropCR`: strip one trailing carriage return. -/
def dropCR (l : Str) : Str :=
  if l.getLast? = some '\r' then l.dropLast else l

/-- The token stream `bufio.Scanner` (with `ScanLines`) produces for a given
input: pieces split at `'\n'`, the final piece kept only when non-empty,
each piece stripped of one trailing `'\r'`. -/
def scanLines (s : Str) : List Str :=
  if s = [] then []
  else
    let parts := splitSep '\n' s
    let parts := if parts.getLast? = some [] then parts.dropLast else parts
    parts.map dropCR

/-- The per-line classification of `NativeBackend.Parse`, with
`trimmed := strings.TrimSpace(raw)` already computed: blank, comment (`#`),
variable (`$`, split at first `=`), section start (trailing `{`), section
end (lone `}`), key-value (contains `=`), else unknown.  The raw line is
always retained. -/
def classifyTrimmed (lineNum : Nat) (raw trimmed : Str) : ConfigLine :=
  if trimmed = [] then ⟨lineNum, raw, .empty, [], []⟩
  else if goHasPref trimmed ['#'] then ⟨lineNum, raw, .comment, [], []⟩
  else if goHasPref trimmed ['$'] then
    match splitOnceAt '=' trimmed with
    | some (k, v) => ⟨lineNum, raw, .variable, goTrimSpace k, goTrimSpace v⟩
    | none => ⟨lineNum, raw, .variable, [], []⟩
  else if trimmed.getLast? = some '{' then
    ⟨lineNum, raw, .sectionStart, goTrimSpace trimmed.dropLast, []⟩
  else if trimmed = ['}'] then ⟨lineNum, raw, .sectionEnd, [], []⟩
  else if goContains trimmed ['='] then
    match splitOnceAt '=' trimmed with
    | some (k, v) => ⟨lineNum, raw, .keyValue, goTrimSpace k, goTrimSpace v⟩
    | none => ⟨lineNum, raw, .unknown, [], []⟩
  else ⟨lineNum, raw, .unknown, [], []⟩

/-- The per-line classification of `NativeBackend.Parse` (see the section
doc above): classify the trimmed line, retaining the raw text. -/
def classifyLine (lineNum : Nat) (raw : Str) : ConfigLine :=
  classifyTrimmed lineNum raw (goTrimSpace raw)

/-- The scanner loop of `NativeBackend.Parse`, numbering lines from 1. -/
def parseLines (n : Nat) : List Str → List ConfigLine
  | [] => []
  | r :: rs => classifyLine (n + 1) r :: parseLines (n + 1) rs

/-- `NativeBackend.Parse` on in-memory text: scan into lines, classify each. -/
def parseText (s : Str) : List ConfigLine :=
  parseLines 0 (scanLines s)

/-- `IR.String`: append each line's raw text followed by `"\n"`. -/
def irString (lines : List ConfigLine) : Str :=
  (lines.map (fun l => l.raw ++ ['\n'])).flatten

/-- Serialisation of a list of raw lines as newline-terminated text (what a
well-formed config file on disk looks like). -/
def unscan (parts : List Str) : Str :=
  (parts.map (fun p => p ++ ['\n'])).flatten

end HyprAgent

namespace HyprAgent

/-! ### apply-patch (`ApplyPatchTool.Execute`, gemini.go file 2) -/

def sFence : Str := "```".data
def sAtAt : Str := "@@".data
def sStars : Str := "***".data
def sDashes : Str := "---".data
def sHereIs : Str := "Here is".data
def sShallI : Str := "Shall I".data

/-- The markdown code-block pass of `ApplyPatchTool.Execute`: toggle
`inBlock` at every fence line and keep only lines seen while *outside* a
block (fence lines themselves are always dropped).  Runs only when the text
contains a fence at all. -/
def stripFences (patch : Str) : Str :=
  if goContains patch sFence then
    joinSep '\n'
      (((splitSep '\n' patch).foldl
        (fun (acc : Bool × List Str) line =>
          if goHasPref (goTrimSpace line) sFence then (!acc.1, acc.2)
          else if !acc.1 then (acc.1, acc.2 ++ [line]) else acc)
        (false, [])).2)
  else patch

/-- The conversational-filler test: decorative `***` / `---` (without `@@`)
lines and `Here is` / `Shall I` chatter. -/
def isFillerLine (line : Str) : Bool :=
  let trimmed := goTrimSpace line
  goHasPref trimmed sStars ||
    (goHasPref trimmed sDashes && !goContains line sAtAt) ||
    goHasPref trimmed sHereIs ||
    goHasPref trimmed sShallI

/-- The full cleanup pipeline of `ApplyPatchTool.Execute` before validation:
fence pass, filler filter, `TrimSpace`. -/
def sanitizePatch (p : Str) : Str :=
  goTrimSpace (joinSep '\n' ((splitSep '\n' (stripFences p)).filter (fun l => !isFillerLine l)))

/-- Mutable world the file tools act on: file contents keyed by resolved
absolute path, plus a log of the snapshots taken (each entry the list of
source files copied into that snapshot). -/
structure ToolState where
  files : Str → Option Str
  snapshots : List (List Str)

structure ApplyPatchArgs where
  path : Str
  patch : Str

/-- The collaborators of `ApplyPatchTool`, abstracted: the backend's
`ListSources`, whether a snapshot service is wired (`t.Snapshot != nil`) and
whether `CreateSnapshot` succeeds, and the external `go-diff`
`PatchFromText` / `PatchApply` pair (`π` is its patch representation). -/
structure ApplyDeps (π : Type) where
  listSources : Except Str (List Str)
  snapshotPresent : Bool
  snapshotOk : List Str → Bool
  patchFromText : Str → Except Str π
  patchApply : π → Str → Str × List Bool

def msgMalformed : Str :=
  "invalid patch format: missing @@ markers".data

def msgNoTarget : Str := "could not determine target file".data

def msgWriteDenied (reason : Str) : Str := "write access denied: ".data ++ reason

def msgReadTargetFailed (target : Str) : Str := "failed to read target file ".data ++ target

def msgSnapshotFailed : Str := "failed to create snapshot".data

def msgPatchParseFailed : Str := "failed to parse patch".data

def msgConflict (failed total : Nat) : Str :=
  "patch application failed: ".data ++ (Nat.repr failed).data ++ " out of ".data ++
    (Nat.repr total).data ++ " hunks failed to apply".data

def msgApplied (target : Str) : Str := "Patch applied successfully to ".data ++ target

/-- Target resolution in `ApplyPatchTool.Execute`: the explicit `path`
argument, or the backend's first listed source; an error when `ListSources`
fails or lists nothing. -/
def resolveTarget {π : Type} (deps : ApplyDeps π) (a : ApplyPatchArgs) : Except Str Str :=
  if a.path = [] then
    match deps.listSources with
    | .ok (s :: _) => .ok s
    | _ => .error msgNoTarget
  else .ok a.path

/-- The snapshot block of `ApplyPatchTool.Execute`: it runs only when
`ListSources` succeeded *and* a snapshot service is wired (`err == nil &&
t.Snapshot != nil`); otherwise it is silently skipped.  When it runs, a
`CreateSnapshot` failure aborts. -/
def snapshotStep {π : Type} (deps : ApplyDeps π) (st : ToolState) : Except Str ToolState :=
  match deps.listSources with
  | .ok sources =>
    if deps.snapshotPresent then
      if deps.snapshotOk sources then
        .ok { st with snapshots := st.snapshots ++ [sources] }
      else .error msgSnapshotFailed
    else .ok st
  | .error _ => .ok st

/-- `ApplyPatchTool.Execute` after argument decoding: sanitize, validate,
resolve the target (explicit path or first listed source), authorize, read,
snapshot, parse the patch, apply all hunks, and write only when every hunk
succeeded. -/
def applyPatchExecute {π : Type} (deps : ApplyDeps π) (sec : BackendSecurity)
    (home : Str) (a : ApplyPatchArgs) (st : ToolState) : Except Str Str × ToolState :=
  if ¬ goContains (sanitizePatch a.patch) sAtAt then (.error msgMalformed, st)
  else
    match resolveTarget deps a with
    | .error e => (.error e, st)
    | .ok target =>
      match isPathAllowed sec home target with
      | .denied reason => (.error (msgWriteDenied reason), st)
      | .allowed =>
        match st.files target with
        | none => (.error (msgReadTargetFailed target), st)
        | some original =>
          match snapshotStep deps st with
          | .error e => (.error e, st)
          | .ok st1 =>
            match deps.patchFromText (sanitizePatch a.patch) with
            | .error _ => (.error msgPatchParseFailed, st1)
            | .ok patches =>
              if 0 < ((deps.patchApply patches original).2.filter (fun b => !b)).length then
                (.error (msgConflict ((deps.patchApply patches original).2.filter (fun b => !b)).length
                          (deps.patchApply patches original).2.length), st1)
              else
                (.ok (msgApplied target),
                 { st1 with files := fun p =>
                     if p = target then some (deps.patchApply patches original).1
                     else st1.files p })

/-! ### rollback (`RollbackTool.Execute`) and `SnapshotService.Restore` -/

structure RollbackArgs where
  snapshotId : Str

def msgIdRequired : Str :=
  "Error: Snapshot ID required (automatic latest detection not implemented yet)".data

def msgRollbackUnimplemented : Str :=
  "Rollback not fully implemented. Please manually restore from ~/.local/share/hyprAgent/backups/".data

/-- `RollbackTool.Execute` after argument decoding: both branches return an
informational string with a nil error and never touch the snapshot service
or the filesystem. -/
def rollbackExecute (a : RollbackArgs) (st : ToolState) : Except Str Str × ToolState :=
  if a.snapshotId = [] then (.ok msgIdRequired, st)
  else (.ok msgRollbackUnimplemented, st)

/-- World for `SnapshotService.Restore`: `os.Stat` success plus contents. -/
structure SnapState where
  statOk : Str → Bool
  files : Str → Option Str

def msgSnapshotNotFound (id : Str) : Str :=
  "snapshot ".data ++ id ++ " not found".data

def msgRestoreCopyFailed (target : Str) : Str :=
  "failed to restore ".data ++ target

/-- One iteration of `Restore`'s loop: copy `snapshotDir/Base(target)` over
`target` when present, silently skip otherwise. -/
def restoreOne (snapshotDir : Str) (acc : Except Str SnapState) (target : Str) : Except Str SnapState :=
  match acc with
  | .error e => .error e
  | .ok st =>
    let src := goJoin [snapshotDir, goBase target]
    if st.statOk src then
      match st.files src with
      | some content =>
        .ok { st with files := fun p => if p = target then some content else st.files p }
      | none => .error (msgRestoreCopyFailed target)
    else .ok st

/-- `SnapshotService.Restore(id, targetFiles)` (snapshot.go:54-72). -/
def snapshotRestore (backupDir id : Str) (targets : List Str) (st : SnapState) : Except Str SnapState :=
  let snapshotDir := goJoin [backupDir, id]
  if ¬ st.statOk snapshotDir then .error (msgSnapshotNotFound id)
  else targets.foldl (restoreOne snapshotDir) (.ok st)

end HyprAgent

namespace HyprAgent

/-! ### Conversation orchestrator (`Agent.ProcessMessage`) and tool dispatch -/

inductive Role
  | system
  | user
  | assistant
  | tool
deriving DecidableEq, Repr

structure FunctionCall where
  name : Str
  arguments : Str
deriving DecidableEq, Repr

structure ToolCall where
  id : Str
  callType : Str
  function : FunctionCall
deriving DecidableEq, Repr

structure Message where
  role : Role
  content : Str
  name : Str
  toolCalls : List ToolCall
  toolCallID : Str
deriving DecidableEq, Repr

/-- The zero `Message` value (a `results` slot the goroutine never wrote). -/
def zeroMessage : Message := ⟨.assistant, [], [], [], []⟩

/-- A registry lookup: capability name to its `Execute` (stateless view, as
in spec §5 tool executions are independent of their siblings). -/
abbrev Registry := Str → Option (Str → Except Str Str)

def msgToolNotFound (name : Str) : Str :=
  "Error: Tool ".data ++ name ++ " not found".data

def msgErrPrefixed (e : Str) : Str := "Error: ".data ++ e

/-- The body of one dispatch goroutine in `ProcessMessage`: an unregistered
name yields a synthetic error result, an execution error is embedded in the
result content, and the result is a tool-role message carrying the call's
linkage id and name. -/
def runToolCall (reg : Registry) (tc : ToolCall) : Message :=
  match reg tc.function.name with
  | none => ⟨.tool, msgToolNotFound tc.function.name, tc.function.name, [], tc.id⟩
  | some exec =>
    match exec tc.function.arguments with
    | .error e => ⟨.tool, msgErrPrefixed e, tc.function.name, [], tc.id⟩
    | .ok output => ⟨.tool, output, tc.function.name, [], tc.id⟩

/-- One goroutine's slot write: `results[i] = Message{...}` — the value
depends only on the call at index `i`, never on when the write runs. -/
def writeSlot (reg : Registry) (calls : List ToolCall) (slots : List (Option Message)) (i : Nat) :
    List (Option Message) :=
  match calls[i]? with
  | some tc => slots.set i (some (runToolCall reg tc))
  | none => slots

/-- The `results` array after the fan-in barrier, given the order in which
the goroutines completed their slot writes (`order` lists call indices in
completion order). -/
def fanOutSlots (reg : Registry) (calls : List ToolCall) (order : List Nat) : List (Option Message) :=
  order.foldl (writeSlot reg calls) (List.replicate calls.length (none : Option Message))

/-- The result messages appended to History after `wg.Wait()`. -/
def dispatchToolCalls (reg : Registry) (calls : List ToolCall) (order : List Nat) : List Message :=
  (fanOutSlots reg calls order).map (fun o => o.getD zeroMessage)

/-- `const maxTurns = 25` in `Agent.ProcessMessage` — a hardcoded literal. -/
def agentMaxTurns : Nat := 25

/-- `AgentConfig` from `internal/configuration/config.go` (`max_turns`,
`debug`); `DefaultConfig` sets `MaxTurns: 25`. -/
structure AgentConfig where
  maxTurns : Nat
  debug : Bool
deriving DecidableEq, Repr

def defaultAgentConfig : AgentConfig := ⟨25, false⟩

/-- The provider adapter contract: full history in, assistant message or
error out (deadline/cancellation failures are among the errors). -/
abbrev Provider := List Message → Except Str Message

def msgLoopLimit : Str :=
  "Error: Agent loop limit reached without final response. I got stuck trying to solve this.".data

structure ProcOutcome where
  result : Except Str Str
  history : List Message
  providerCalls : Nat
deriving Repr

/-- The `for i := 0; i < maxTurns; i++` loop of `ProcessMessage`.  `fuel` is
the remaining turns, `calls` the provider calls made so far, `orders` the
per-turn goroutine completion order.  Exhausted fuel returns the fixed
loop-limit text with a nil error. -/
def agentLoop (provider : Provider) (reg : Registry) (orders : Nat → List Nat) :
    Nat → Nat → List Message → ProcOutcome
  | 0, calls, history => ⟨.ok msgLoopLimit, history, calls⟩
  | fuel + 1, calls, history =>
    match provider history with
    | .error e => ⟨.error e, history, calls + 1⟩
    | .ok resp =>
      let history1 := history ++ [resp]
      if resp.toolCalls = [] then ⟨.ok resp.content, history1, calls + 1⟩
      else
        agentLoop provider reg orders fuel (calls + 1)
          (history1 ++ dispatchToolCalls reg resp.toolCalls (orders calls))

/-- `Agent.ProcessMessage`: prepend the system prompt when history is empty,
append the user message, then run up to `agentMaxTurns` turns.  (The
`AgentConfig.MaxTurns` setting is not consulted anywhere in this path.) -/
def processMessage (provider : Provider) (reg : Registry) (orders : Nat → List Nat)
    (system : Str) (history : List Message) (input : Str) : ProcOutcome :=
  let h0 := if history = [] ∧ system ≠ [] then [Message.mk .system system [] [] []] else history
  agentLoop provider reg orders agentMaxTurns 0 (h0 ++ [Message.mk .user input [] [] []])

/-! ### Backend detection (`Detect` methods, main.go wiring, `DetectRootTool.Execute`) -/

/-- The observable environment of the `Detect` methods: `os.Stat` success,
the `HYDE_CONFIG_HOME` marker, and the user's home directory. -/
structure SysEnv where
  statOk : Str → Bool
  hydeEnvSet : Bool
  home : Str

def sHydeConf : Str := "hyde.conf".data
def sConfigsSeg : Str := "Configs".data
def sScriptsSeg : Str := "scripts".data
def sOmarchySeg : Str := "omarchy".data

/-- `NativeBackend.Detect("")`: does `~/.config/hypr/hyprland.conf` exist? -/
def nativeDetects (env : SysEnv) : Bool :=
  env.statOk (goJoin [configRoot env.home, sHyprlandConf])

/-- `HyDEBackend.Detect("")`: the environment marker, `hyde.conf`, or a
`Configs`/`scripts` directory under the root. -/
def hydeDetects (env : SysEnv) : Bool :=
  env.hydeEnvSet ||
    env.statOk (goJoin [configRoot env.home, sHydeConf]) ||
    (env.statOk (goJoin [configRoot env.home, sConfigsSeg]) ||
     env.statOk (goJoin [configRoot env.home, sScriptsSeg]))

/-- `OmarchyBackend.Detect("")`: an `omarchy` directory and `hyprland.conf`
must both exist under the root. -/
def omarchyDetects (env : SysEnv) : Bool :=
  env.statOk (goJoin [configRoot env.home, sOmarchySeg]) &&
    env.statOk (goJoin [configRoot env.home, sHyprlandConf])

def backendDetects (env : SysEnv) : ConfigSourceType → Bool
  | .native => nativeDetects env
  | .hyde => hydeDetects env
  | .omarchy => omarchyDetects env

/-- `backends := []configuration.ConfigBackend{hydeBackend, nativeBackend,
omarchyBackend}` in `main` — the order `DetectRootTool` probes. -/
def backendProbeOrder : List ConfigSourceType := [.hyde, .native, .omarchy]

/-- On success every variant sets `ConfigPath` to `root/hyprland.conf`, and
`ListSources` returns exactly that one path. -/
def detectedSources (env : SysEnv) : List Str :=
  [goJoin [configRoot env.home, sHyprlandConf]]

inductive DetectOutcome
  | found (t : ConfigSourceType) (sources : List Str)
  | unknown
deriving DecidableEq, Repr

/-- The loop of `DetectRootTool.Execute`: return the first variant that
detects, with its listed sources; `unknown` when none match. -/
def firstDetected (env : SysEnv) : List ConfigSourceType → DetectOutcome
  | [] => .unknown
  | b :: bs =>
    if backendDetects env b then .found b (detectedSources env)
    else firstDetected env bs

def detectRootExecute (env : SysEnv) : DetectOutcome :=
  firstDetected env backendProbeOrder

/-! ### read-file / list-dir (`ReadFileTool.Execute`, `ListDirTool.Execute`) -/

/-- Resolution the operating system applies to the raw path argument of
`os.ReadFile` / `os.ReadDir`: a relative path is rooted at the process's
working directory. -/
def osResolve (cwd p : Str) : Str :=
  if isAbs p then goClean p else goClean (goJoin [cwd, p])

def msgAccessDenied (reason : Str) : Str := "access denied: ".data ++ reason

def msgReadFileFailed : Str := "failed to read file".data

def msgReadDirFailed : Str := "failed to read directory".data

/-- `ReadFileTool.Execute` after argument decoding: authorize `a.Path` via
the gate (which roots relative paths at `configRoot home`), then hand the
raw string to `os.ReadFile`, which the OS resolves against `cwd`. -/
def readFileExecute (sec : BackendSecurity) (home cwd : Str)
    (fs : Str → Option Str) (path : Str) : Except Str Str :=
  match isPathAllowed sec home path with
  | .denied reason => .error (msgAccessDenied reason)
  | .allowed =>
    match fs (osResolve cwd path) with
    | none => .error msgReadFileFailed
    | some content => .ok content

/-- `ListDirTool.Execute` after argument decoding, with `dirs` giving each
directory's entry names (`os.ReadDir`, resolved by the OS against `cwd`). -/
def listDirExecute (sec : BackendSecurity) (home cwd : Str)
    (dirs : Str → Option (List Str)) (path : Str) : Except Str (List Str) :=
  match isPathAllowed sec home path with
  | .denied reason => .error (msgAccessDenied reason)
  | .allowed =>
    match dirs (osResolve cwd path) with
    | none => .error msgReadDirFailed
    | some names => .ok names

end HyprAgent

/-- Decidable equality for `Except`, used to evaluate tool results on
concrete inputs. -/
instance {α β : Type} [DecidableEq α] [DecidableEq β] : DecidableEq (Except α β) := by
  intro x y
  cases x <;> cases y
  case error.error a b => exact decidable_of_iff (a = b) (by simp)
  case error.ok a b => exact .isFalse (by simp)
  case ok.error a b => exact .isFalse (by simp)
  case ok.ok a b => exact decidable_of_iff (a = b) (by simp)

namespace HyprAgent

/-! ### Concrete inputs used by counterexamples and witnesses -/

def cHome : Str := "/root".data

def cEvilPath : Str := "/root/.config/hyprEVIL/hyprland.conf".data

def cEtcPasswd : Str := "/etc/passwd".data

def cSnapId : Str := "20240101-000000".data

def cTarget : Str := "/root/.config/hypr/hyprland.conf".data

def cSnapCopy : Str := "/root/.local/share/hyprAgent/backups/20240101-000000/hyprland.conf".data

def cBroken : Str := "broken".data

def cGood : Str := "good".data

def c10State : ToolState where
  files := fun p => if p = cTarget then some cBroken else if p = cSnapCopy then some cGood else none
  snapshots := []

def c6FencedPatch : Str := "Here is the patch:\n```diff\n@@ -1 +1 @@\n-a\n+b\n```".data

def c9Env : SysEnv where
  statOk := fun p =>
    p = "/root/.config/hypr/omarchy".data || p = "/root/.config/hypr/hyprland.conf".data
  hydeEnvSet := false
  home := cHome

/-! ### C10 — rollback -/

/-- C10 counterexample: invoking rollback with an explicit snapshot id, in a
state where the snapshot directory holds a same-named copy of the target
that differs from the on-disk content, returns the fixed
"not fully implemented" message and leaves the target file untouched — the
capability does not restore the snapshot. -/
theorem c10_counterexample :
    (rollbackExecute ⟨cSnapId⟩ c10State).1 = .ok msgRollbackUnimplemented ∧
    (rollbackExecute ⟨cSnapId⟩ c10State).2.files cTarget = some cBroken ∧
    c10State.files cSnapCopy = some cGood ∧
    cBroken ≠ cGood := by
  refine ⟨by decide, by decide, by decide, by decide⟩

/-- C10 (amended): for every invocation of the rollback capability that
supplies a snapshot id, the capability performs no restoration at all: it
returns the fixed manual-restore message with a nil error and leaves the
tool state (files and snapshots) unchanged; `SnapshotService.Restore` is
never invoked. -/
theorem c10_rollback_is_unimplemented (a : RollbackArgs) (st : ToolState)
    (h : a.snapshotId ≠ []) :
    rollbackExecute a st = (.ok msgRollbackUnimplemented, st) := by
  unfold rollbackExecute
  simp [h]

/-- C10 witness: the amended theorem at the concrete invocation. -/
theorem c10_witness :
    rollbackExecute ⟨cSnapId⟩ c10State = (.ok msgRollbackUnimplemented, c10State) :=
  c10_rollback_is_unimplemented ⟨cSnapId⟩ c10State (by decide)

end HyprAgent

namespace HyprAgent

/-! ### C6 — apply-patch sanitize step -/

/-- Validation helper: when the sanitized patch text has no `@@` marker,
apply-patch rejects it as malformed before doing anything else. -/
theorem sanitizeFailRejected {π : Type} (deps : ApplyDeps π) (sec : BackendSecurity)
    (home : Str) (a : ApplyPatchArgs) (st : ToolState)
    (h : goContains (sanitizePatch a.patch) sAtAt = false) :
    applyPatchExecute deps sec home a st = (.error msgMalformed, st) := by
  unfold applyPatchExecute
  simp [h]

/-- C6: the fence-stripping pass of apply-patch keeps only the lines seen
*outside* fenced blocks and discards the block contents, so a well-formed
patch wrapped in markdown fences (with conversational filler around it)
is reduced to the empty string and every hunk marker is lost; the Validate
step then rejects it as malformed, for every backend, state and target.
This contradicts the cleanup's stated purpose (its own comment says it
removes the markdown code-block wrappers so the patch can be applied). -/
theorem c6_fenced_patch_rejected :
    sanitizePatch c6FencedPatch = [] ∧
    goContains c6FencedPatch sAtAt = true ∧
    ∀ (π : Type) (deps : ApplyDeps π) (sec : BackendSecurity) (home path : Str) (st : ToolState),
      applyPatchExecute deps sec home ⟨path, c6FencedPatch⟩ st = (.error msgMalformed, st) := by
  refine ⟨by decide, by decide, ?_⟩
  intro π deps sec home path st
  exact sanitizeFailRejected deps sec home ⟨path, c6FencedPatch⟩ st
    (show goContains (sanitizePatch c6FencedPatch) sAtAt = false from by decide)

/-! ### C9 — backend probe order -/

/-- C9 counterexample: the probe order in `main` is HyDE, Native, Omarchy —
the generic Native variant is *not* after all specialized variants — and on
an Omarchy layout (an `omarchy` directory plus `hyprland.conf` under the
root, no HyDE markers) detect-installation-root reports Native even though
the specialized Omarchy detector also matches. -/
theorem c9_counterexample :
    backendProbeOrder.getLast? ≠ some ConfigSourceType.native ∧
    backendProbeOrder = [.hyde, .native, .omarchy] ∧
    omarchyDetects c9Env = true ∧
    detectRootExecute c9Env = .found .native (detectedSources c9Env) := by
  refine ⟨by decide, by decide, by decide, by decide⟩

/-- Position of a variant in the probe order (HyDE 0, Native 1, Omarchy 2). -/
def probeIndex : ConfigSourceType → Nat
  | .hyde => 0
  | .native => 1
  | .omarchy => 2

/-- C9 (amended): variants are probed in the fixed order HyDE, Native,
Omarchy (the generic Native variant before the specialized Omarchy), and
detect-installation-root returns the first variant that detects, together
with its listed source files, or `unknown` exactly when no variant
detects; any variant that appears earlier in the probe order than the
returned one does not detect. -/
theorem c9_first_successful_probe (env : SysEnv) :
    (detectRootExecute env = .unknown ↔ ∀ b ∈ backendProbeOrder, backendDetects env b = false) ∧
    (∀ t srcs, detectRootExecute env = .found t srcs →
      backendDetects env t = true ∧ srcs = detectedSources env ∧
      ∀ b ∈ backendProbeOrder, probeIndex b < probeIndex t → backendDetects env b = false) := by
  cases hh : hydeDetects env <;> cases hn : nativeDetects env <;> cases ho : omarchyDetects env <;>
    simp_all [detectRootExecute, firstDetected, backendProbeOrder, backendDetects, probeIndex]

/-- A root containing only `hyprland.conf`: no HyDE or Omarchy markers. -/
def c9NatEnv : SysEnv where
  statOk := fun p => p = "/root/.config/hypr/hyprland.conf".data
  hydeEnvSet := false
  home := cHome

/-- C9 witness: on a root containing only `hyprland.conf` (no HyDE or
Omarchy markers), the first successful probe is Native, with exactly the one
listed source, and the earlier HyDE probe did not detect. -/
theorem c9_witness :
    backendDetects c9NatEnv .native = true ∧
    detectedSources c9NatEnv = ["/root/.config/hypr/hyprland.conf".data] ∧
    ∀ b ∈ backendProbeOrder, probeIndex b < probeIndex .native → backendDetects c9NatEnv b = false :=
  have h := (c9_first_successful_probe c9NatEnv).2 .native (detectedSources c9NatEnv) (by decide)
  ⟨h.1, by decide, h.2.2⟩

end HyprAgent

namespace HyprAgent

/-! ### C1 — security gate -/

/-- C1 counterexample: the absolute path `~/.config/hyprEVIL/hyprland.conf`
normalizes to itself and lies outside the configuration root
`~/.config/hypr`, yet `IsPathAllowed` accepts it under the Native variant:
the root check is the deprecated string-prefix `filepath.HasPrefix` (which
`.config/hyprEVIL` passes) and the basename `hyprland.conf` then matches the
allowed-files list. -/
theorem c1_counterexample :
    liesWithinRoot (configRoot cHome) (authResolve cHome cEvilPath) = false ∧
    isPathAllowed (securityFor .native) cHome cEvilPath = .allowed := by
  refine ⟨by decide, by decide⟩

/-- C1 (amended): for every backend variant and every target path whose
normalized absolute form does not have the configuration root as a *string*
prefix, `IsPathAllowed` denies with the "outside Hyprland config directory"
reason; in particular `/etc/passwd` is denied under the Native variant.
(The stronger claim — denial for every path outside the root as a
*directory* — fails: a sibling such as `~/.config/hyprEVIL/hyprland.conf`
passes the string-prefix gate and its basename matches the allow-list.) -/
theorem c1_string_pref_gate (v : ConfigSourceType) (home path : Str)
    (h : goHasPref (authResolve home path) (configRoot home) = false) :
    isPathAllowed (securityFor v) home path = .denied (msgOutside path) := by
  unfold isPathAllowed
  simp [h]

/-- C1 witness: `read-file("/etc/passwd")` under the Native variant is
denied because the normalized path fails the root check. -/
theorem c1_witness :
    goHasPref (authResolve cHome cEtcPasswd) (configRoot cHome) = false ∧
    isPathAllowed (securityFor .native) cHome cEtcPasswd = .denied (msgOutside cEtcPasswd) :=
  ⟨by decide, c1_string_pref_gate .native cHome cEtcPasswd (by decide)⟩

end HyprAgent

namespace HyprAgent

/-! ### C7 — orchestrator turn limit -/

/-- The loop makes at most `fuel` further provider calls. -/
theorem agentLoop_calls_le (p : Provider) (r : Registry) (o : Nat → List Nat) :
    ∀ (fuel calls : Nat) (h : List Message),
      (agentLoop p r o fuel calls h).providerCalls ≤ calls + fuel := by
  intro fuel
  induction fuel with
  | zero => intro calls h; simp [agentLoop]
  | succ n ih =>
    intro calls h
    unfold agentLoop
    cases hp : p h with
    | error e => simp
    | ok resp =>
      by_cases hc : resp.toolCalls = []
      · simp [hc]
      · simp only [hc, ite_false, if_neg]
        refine le_trans (ih (calls + 1) _) (by omega)

/-- Against an adapter that answers every history with tool calls, the loop
burns all its fuel and ends in the fixed loop-limit message with a nil
error. -/
theorem agentLoop_alwaysTool (p : Provider) (r : Registry) (o : Nat → List Nat)
    (hp : ∀ h, ∃ m, p h = .ok m ∧ m.toolCalls ≠ []) :
    ∀ (fuel calls : Nat) (h : List Message),
      (agentLoop p r o fuel calls h).result = .ok msgLoopLimit ∧
      (agentLoop p r o fuel calls h).providerCalls = calls + fuel := by
  intro fuel
  induction fuel with
  | zero => intro calls h; simp [agentLoop]
  | succ n ih =>
    intro calls h
    obtain ⟨m, hm, hnil⟩ := hp h
    unfold agentLoop
    rw [hm]
    simp [hnil]
    exact ⟨(ih _ _).1, by rw [(ih _ _).2]; omega⟩

/-- C7: `ProcessMessage` makes at most `agentMaxTurns` = 25 provider calls
for every adapter behavior, and against an adapter that always returns tool
calls it makes exactly 25 calls and then returns the fixed "loop limit
reached" text with a nil error.  The bound is the hardcoded
`const maxTurns = 25`; the `AgentConfig.MaxTurns` setting (default 25) is
never consulted by this code path. -/
theorem c7_turn_limit (provider : Provider) (reg : Registry) (orders : Nat → List Nat)
    (system : Str) (history : List Message) (input : Str) :
    (processMessage provider reg orders system history input).providerCalls ≤ agentMaxTurns ∧
    ((∀ h, ∃ m, provider h = .ok m ∧ m.toolCalls ≠ []) →
      (processMessage provider reg orders system history input).result = .ok msgLoopLimit ∧
      (processMessage provider reg orders system history input).providerCalls = agentMaxTurns) := by
  constructor
  · have := agentLoop_calls_le provider reg orders agentMaxTurns 0
      ((if history = [] ∧ system ≠ [] then [Message.mk .system system [] [] []] else history) ++
        [Message.mk .user input [] [] []])
    simpa [processMessage] using this
  · intro hp
    have := agentLoop_alwaysTool provider reg orders hp agentMaxTurns 0
      ((if history = [] ∧ system ≠ [] then [Message.mk .system system [] [] []] else history) ++
        [Message.mk .user input [] [] []])
    simpa [processMessage] using this

def c7Call : ToolCall := ⟨"1".data, "function".data, ⟨"make_patch".data, "{}".data⟩⟩

def c7Resp : Message := ⟨.assistant, [], [], [c7Call], []⟩

def c7Provider : Provider := fun _ => .ok c7Resp

def c7Reg : Registry := fun _ => none

def c7Orders : Nat → List Nat := fun _ => [0]

def cUserInput : Str := "hello".data

/-- C7 witness: a concrete always-tool-calling adapter runs exactly 25
provider calls and ends with the loop-limit text. -/
theorem c7_witness :
    (processMessage c7Provider c7Reg c7Orders [] [] cUserInput).result = .ok msgLoopLimit ∧
    (processMessage c7Provider c7Reg c7Orders [] [] cUserInput).providerCalls = agentMaxTurns :=
  (c7_turn_limit c7Provider c7Reg c7Orders [] [] cUserInput).2
    (fun _ => ⟨c7Resp, rfl, by decide⟩)

end HyprAgent

namespace HyprAgent

/-! ### C8 — order-preserving fan-out/fan-in -/

theorem writeSlot_length (reg : Registry) (calls : List ToolCall)
    (slots : List (Option Message)) (i : Nat) :
    (writeSlot reg calls slots i).length = slots.length := by
  unfold writeSlot
  cases h : calls[i]? <;> simp

theorem foldl_writeSlot_length (reg : Registry) (calls : List ToolCall) :
    ∀ (order : List Nat) (init : List (Option Message)),
      (order.foldl (writeSlot reg calls) init).length = init.length := by
  intro order
  induction order with
  | nil => intro init; rfl
  | cons i rest ih =>
    intro init
    simp only [List.foldl_cons]
    rw [ih, writeSlot_length]

/-- Any slot covered by the completion order holds the result of its own
call; uncovered slots keep their initial value. -/
theorem foldl_writeSlot_get (reg : Registry) (calls : List ToolCall) :
    ∀ (order : List Nat) (init : List (Option Message)),
      init.length = calls.length →
      ∀ (j : Nat), j < calls.length →
        (order.foldl (writeSlot reg calls) init)[j]? =
          if j ∈ order then calls[j]?.map (fun tc => some (runToolCall reg tc))
          else init[j]? := by
  intro order
  induction order with
  | nil => intro init _ j _; simp
  | cons i rest ih =>
    intro init hlen j hj
    simp only [List.foldl_cons]
    have hlen' : (writeSlot reg calls init i).length = calls.length := by
      rw [writeSlot_length]; exact hlen
    rw [ih (writeSlot reg calls init i) hlen' j hj]
    by_cases hr : j ∈ rest
    · simp [hr]
    · by_cases hij : j = i
      · subst hij
        have htc : calls[j]? = some (calls.get ⟨j, hj⟩) := by
          rw [List.getElem?_eq_getElem hj]
          simp [List.get_eq_getElem]
        simp only [hr, if_neg, ite_false, List.mem_cons]
        rw [writeSlot]
        rw [htc]
        have hjl : j < init.length := by rw [hlen]; exact hj
        simp [htc, List.getElem?_set_self hjl]
      · have : ¬ j ∈ i :: rest := by
          simp [List.mem_cons, hij, hr]
        simp only [hr, ite_false, this]
        rw [writeSlot]
        cases htc : calls[i]? with
        | none => simp
        | some tc => simp [List.getElem?_set_ne (fun h => hij h.symm)]

/-- C8: for every registry and list of issued tool calls, and for every
completion order that covers all the calls (in particular every permutation
of them), the fan-in result list equals the per-call results laid out in
issue order: slot `i` holds call `i`'s result — a synthetic error message
for an unregistered capability name, the embedded error text for a failed
execution, the output otherwise — so appending the results to History
preserves issuance order regardless of completion order. -/
theorem c8_results_in_issue_order (reg : Registry) (calls : List ToolCall) (order : List Nat)
    (hcover : ∀ i, i < calls.length → i ∈ order) :
    dispatchToolCalls reg calls order = calls.map (runToolCall reg) := by
  unfold dispatchToolCalls fanOutSlots
  apply List.ext_getElem?
  intro j
  by_cases hj : j < calls.length
  · rw [List.getElem?_map,
      foldl_writeSlot_get reg calls order _ (by simp) j hj,
      if_pos (hcover j hj)]
    have htc : calls[j]? = some (calls.get ⟨j, hj⟩) := by
      rw [List.getElem?_eq_getElem hj]
      simp [List.get_eq_getElem]
    simp [htc]
  · have h1 : (List.map (runToolCall reg) calls)[j]? = none := by
      apply List.getElem?_eq_none
      simpa using Nat.le_of_not_lt hj
    have h2 :
        ((order.foldl (writeSlot reg calls)
            (List.replicate calls.length (none : Option Message))).map
          (fun o => o.getD zeroMessage))[j]? = none := by
      apply List.getElem?_eq_none
      rw [List.length_map, foldl_writeSlot_length]
      simpa using Nat.le_of_not_lt hj
    rw [h1, h2]

def c8Calls : List ToolCall :=
  [⟨"1".data, "function".data, ⟨"read_file".data, "{}".data⟩⟩,
   ⟨"2".data, "function".data, ⟨"no_such_tool".data, "{}".data⟩⟩,
   ⟨"3".data, "function".data, ⟨"make_patch".data, "{}".data⟩⟩]

/-- A registry where call 1 succeeds, call 2 names an unregistered tool and
call 3 fails during execution. -/
def c8Reg : Registry := fun name =>
  if name = "read_file".data then some (fun _ => .ok "content".data)
  else if name = "make_patch".data then some (fun _ => .error "boom".data)
  else none

/-- C8 witness: with three calls completing in reversed order, the results
still come out in issuance order, with the synthetic not-found and embedded
error contents in their issued slots. -/
theorem c8_witness :
    dispatchToolCalls c8Reg c8Calls [2, 0, 1] = c8Calls.map (runToolCall c8Reg) ∧
    (c8Calls.map (runToolCall c8Reg)).map (fun m => m.content) =
      ["content".data, msgToolNotFound "no_such_tool".data, msgErrPrefixed "boom".data] :=
  ⟨c8_results_in_issue_order c8Reg c8Calls [2, 0, 1] (by decide), by decide⟩

end HyprAgent

namespace HyprAgent

/-! ### C2 / C3 — apply-patch characterization -/

theorem snapshotStep_files {π : Type} (deps : ApplyDeps π) (st st1 : ToolState)
    (h : snapshotStep deps st = .ok st1) : st1.files = st.files := by
  unfold snapshotStep at h
  split at h
  · split at h
    · split at h
      · injection h with h1; subst h1; rfl
      · cases h
    · injection h with h1; subst h1; rfl
  · injection h with h1; subst h1; rfl

/-- The snapshot block when `ListSources` succeeded and a snapshot service
is wired: log the snapshot or abort, depending on `CreateSnapshot`. -/
theorem snapshotStep_eq {π : Type} (deps : ApplyDeps π) (st : ToolState) (sources : List Str)
    (hls : deps.listSources = .ok sources) (hsp : deps.snapshotPresent = true) :
    snapshotStep deps st =
      if deps.snapshotOk sources then .ok { st with snapshots := st.snapshots ++ [sources] }
      else .error msgSnapshotFailed := by
  unfold snapshotStep
  rw [hls]
  simp [hsp]

/-- Full control-flow characterization of `ApplyPatchTool.Execute`:
(A) on any reported failure no file content changes; (B) a success means the
target was authorized, read, every hunk of the parsed patch applied, and
only the target was overwritten with the patched content; (C) a success
passes through the snapshot step; (F) a snapshot-step failure aborts with
the state exactly as it was. -/
theorem applyPatchCharacterization {π : Type} (deps : ApplyDeps π) (sec : BackendSecurity)
    (home : Str) (a : ApplyPatchArgs) (st : ToolState) :
    (∀ e, (applyPatchExecute deps sec home a st).1 = .error e →
      ∀ p, (applyPatchExecute deps sec home a st).2.files p = st.files p) ∧
    (∀ out, (applyPatchExecute deps sec home a st).1 = .ok out →
      ∃ target original patches,
        isPathAllowed sec home target = .allowed ∧
        st.files target = some original ∧
        deps.patchFromText (sanitizePatch a.patch) = .ok patches ∧
        (deps.patchApply patches original).2.all (fun b => b) = true ∧
        ∀ p, (applyPatchExecute deps sec home a st).2.files p =
          if p = target then some (deps.patchApply patches original).1 else st.files p) ∧
    (∀ out, (applyPatchExecute deps sec home a st).1 = .ok out →
      ∃ st1, snapshotStep deps st = .ok st1 ∧
        (applyPatchExecute deps sec home a st).2.snapshots = st1.snapshots) ∧
    (∀ e, snapshotStep deps st = .error e →
      (applyPatchExecute deps sec home a st).2 = st ∧
      ∀ out, (applyPatchExecute deps sec home a st).1 ≠ .ok out) := by
  obtain ⟨res, st2, hEq⟩ : ∃ r s, applyPatchExecute deps sec home a st = (r, s) := ⟨_, _, rfl⟩
  rw [hEq]
  unfold applyPatchExecute at hEq
  split at hEq
  · injection hEq with h1 h2; subst h1; subst h2
    refine ⟨fun e he p => rfl, fun out hout => ?_, fun out hout => ?_,
      fun e he => ⟨rfl, fun out hout => ?_⟩⟩ <;> exact nomatch hout
  · split at hEq
    · injection hEq with h1 h2; subst h1; subst h2
      refine ⟨fun e he p => rfl, fun out hout => ?_, fun out hout => ?_,
        fun e he => ⟨rfl, fun out hout => ?_⟩⟩ <;> exact nomatch hout
    · rename_i target hTarget
      split at hEq
      · injection hEq with h1 h2; subst h1; subst h2
        refine ⟨fun e he p => rfl, fun out hout => ?_, fun out hout => ?_,
          fun e he => ⟨rfl, fun out hout => ?_⟩⟩ <;> exact nomatch hout
      · rename_i hAllow
        split at hEq
        · injection hEq with h1 h2; subst h1; subst h2
          refine ⟨fun e he p => rfl, fun out hout => ?_, fun out hout => ?_,
            fun e he => ⟨rfl, fun out hout => ?_⟩⟩ <;> exact nomatch hout
        · rename_i original hOrig
          split at hEq
          · rename_i eSnap hSnapE
            injection hEq with h1 h2; subst h1; subst h2
            refine ⟨fun e he p => rfl, fun out hout => ?_, fun out hout => ?_,
              fun e he => ⟨rfl, fun out hout => ?_⟩⟩ <;> exact nomatch hout
          · rename_i st1 hSnap
            have hstf : st1.files = st.files := snapshotStep_files deps st st1 hSnap
            have hnoSnapE : ∀ e, snapshotStep deps st = .error e → False := by
              intro e he; rw [hSnap] at he; cases he
            split at hEq
            · injection hEq with h1 h2; subst h1; subst h2
              refine ⟨fun e he p => by rw [hstf], fun out hout => ?_, fun out hout => ?_,
                fun e he => absurd he (hnoSnapE e)⟩ <;> exact nomatch hout
            · rename_i patches hParse
              split at hEq
              · injection hEq with h1 h2; subst h1; subst h2
                refine ⟨fun e he p => by rw [hstf], fun out hout => ?_, fun out hout => ?_,
                  fun e he => absurd he (hnoSnapE e)⟩ <;> exact nomatch hout
              · rename_i hFail
                injection hEq with h1 h2; subst h1; subst h2
                refine ⟨?_, ?_, ?_, ?_⟩
                · intro e he p
                  exact nomatch he
                · intro out hout
                  refine ⟨target, original, patches, hAllow, hOrig, hParse, ?_, ?_⟩
                  · have hnil : (deps.patchApply patches original).2.filter (fun b => !b) = [] :=
                      List.eq_nil_of_length_eq_zero (Nat.eq_zero_of_not_pos hFail)
                    rw [List.all_eq_true]
                    intro b hb
                    cases b with
                    | true => rfl
                    | false =>
                      exfalso
                      have hmem : (false : Bool) ∈
                          (deps.patchApply patches original).2.filter (fun x => !x) :=
                        List.mem_filter.mpr ⟨hb, rfl⟩
                      rw [hnil] at hmem
                      cases hmem
                  · intro p
                    show (if p = target then some (deps.patchApply patches original).1
                          else st1.files p) = _
                    rw [hstf]
                · intro out hout
                  exact ⟨st1, hSnap, rfl⟩
                · intro e he
                  exact absurd he (hnoSnapE e)

/-- C2: apply-patch is all-or-nothing — whenever the capability reports a
failure (in particular when any hunk fails to apply), every file's on-disk
bytes afterwards equal its bytes before the call; and whenever it reports
success, the target was authorized, its current content was read, every hunk
of the parsed patch applied against that content, and only then was the
target (and only the target) overwritten with the fully patched content. -/
theorem c2_apply_patch_all_or_nothing {π : Type} (deps : ApplyDeps π) (sec : BackendSecurity)
    (home : Str) (a : ApplyPatchArgs) (st : ToolState) :
    (∀ e, (applyPatchExecute deps sec home a st).1 = .error e →
      ∀ p, (applyPatchExecute deps sec home a st).2.files p = st.files p) ∧
    (∀ out, (applyPatchExecute deps sec home a st).1 = .ok out →
      ∃ target original patches,
        isPathAllowed sec home target = .allowed ∧
        st.files target = some original ∧
        deps.patchFromText (sanitizePatch a.patch) = .ok patches ∧
        (deps.patchApply patches original).2.all (fun b => b) = true ∧
        ∀ p, (applyPatchExecute deps sec home a st).2.files p =
          if p = target then some (deps.patchApply patches original).1 else st.files p) :=
  ⟨(applyPatchCharacterization deps sec home a st).1,
   (applyPatchCharacterization deps sec home a st).2.1⟩

end HyprAgent

namespace HyprAgent

def cPatchText : Str := "@@ -1 +1 @@\n-a\n+b".data

def c2Deps : ApplyDeps Unit where
  listSources := .ok [cTarget]
  snapshotPresent := true
  snapshotOk := fun _ => true
  patchFromText := fun _ => .ok ()
  patchApply := fun _ _ => (cGood, [false])

def c2Args : ApplyPatchArgs := ⟨cTarget, cPatchText⟩

def c2State : ToolState where
  files := fun p => if p = cTarget then some cBroken else none
  snapshots := []

/-- C2 witness: a concrete run whose single hunk fails to apply reports the
conflict and leaves the target file's bytes untouched. -/
theorem c2_witness :
    (applyPatchExecute c2Deps nativeSec cHome c2Args c2State).1 = .error (msgConflict 1 1) ∧
    (applyPatchExecute c2Deps nativeSec cHome c2Args c2State).2.files cTarget =
      c2State.files cTarget :=
  ⟨by decide,
   (c2_apply_patch_all_or_nothing c2Deps nativeSec cHome c2Args c2State).1
     (msgConflict 1 1) (by decide) cTarget⟩

def c3Deps : ApplyDeps Unit where
  listSources := .error "config path not detected".data
  snapshotPresent := true
  snapshotOk := fun _ => true
  patchFromText := fun _ => .ok ()
  patchApply := fun _ _ => (cGood, [true])

def c3Args : ApplyPatchArgs := ⟨cTarget, cPatchText⟩

def c3State : ToolState where
  files := fun p => if p = cTarget then some cBroken else none
  snapshots := []

/-- C3 counterexample: with an explicit target path, a wired snapshot
service, and a backend whose `ListSources` fails, apply-patch skips the
snapshot block entirely (the Go code only snapshots when `err == nil`),
applies the patch and writes the target — a successful write with no
snapshot of any source ever created, refuting the claim that every write is
preceded by a snapshot and that a snapshotting problem aborts the call. -/
theorem c3_counterexample :
    c3Deps.snapshotPresent = true ∧
    (applyPatchExecute c3Deps nativeSec cHome c3Args c3State).1 = .ok (msgApplied cTarget) ∧
    (applyPatchExecute c3Deps nativeSec cHome c3Args c3State).2.files cTarget = some cGood ∧
    c3State.files cTarget = some cBroken ∧
    cGood ≠ cBroken ∧
    (applyPatchExecute c3Deps nativeSec cHome c3Args c3State).2.snapshots = [] := by
  refine ⟨by decide, by decide, by decide, by decide, by decide, by decide⟩

/-- C3 (amended): *when the backend's `ListSources` succeeds and a snapshot
service is wired*, apply-patch is fail-closed: a `CreateSnapshot` failure
aborts the call with no mutation (no file content and no snapshot log
change), and every execution that reports success logged a snapshot of all
listed sources before writing.  When `ListSources` fails (or no snapshot
service is wired) the snapshot block is silently skipped and a write can
happen with no snapshot, as the counterexample shows. -/
theorem c3_snapshot_fail_closed {π : Type} (deps : ApplyDeps π) (sec : BackendSecurity)
    (home : Str) (a : ApplyPatchArgs) (st : ToolState) (sources : List Str)
    (hls : deps.listSources = .ok sources) (hsp : deps.snapshotPresent = true) :
    (deps.snapshotOk sources = false →
      (applyPatchExecute deps sec home a st).2 = st ∧
      ∀ out, (applyPatchExecute deps sec home a st).1 ≠ .ok out) ∧
    (∀ out, (applyPatchExecute deps sec home a st).1 = .ok out →
      (applyPatchExecute deps sec home a st).2.snapshots = st.snapshots ++ [sources]) := by
  have hchar := applyPatchCharacterization deps sec home a st
  constructor
  · intro hok
    exact hchar.2.2.2 msgSnapshotFailed
      (by rw [snapshotStep_eq deps st sources hls hsp, hok]; simp)
  · intro out hout
    obtain ⟨st1, hSnap, hsnaps⟩ := hchar.2.2.1 out hout
    rw [hsnaps]
    rw [snapshotStep_eq deps st sources hls hsp] at hSnap
    cases hok : deps.snapshotOk sources with
    | false => rw [hok] at hSnap; simp at hSnap
    | true =>
      rw [hok] at hSnap
      simp at hSnap
      rw [← hSnap]

def c3FailDeps : ApplyDeps Unit where
  listSources := .ok [cTarget]
  snapshotPresent := true
  snapshotOk := fun _ => false
  patchFromText := fun _ => .ok ()
  patchApply := fun _ _ => (cGood, [true])

/-- C3 witness: with a wired snapshot service whose `CreateSnapshot` fails,
the concrete apply-patch run aborts and changes nothing. -/
theorem c3_witness :
    (applyPatchExecute c3FailDeps nativeSec cHome c3Args c3State).2 = c3State ∧
    ∀ out, (applyPatchExecute c3FailDeps nativeSec cHome c3Args c3State).1 ≠ .ok out :=
  (c3_snapshot_fail_closed c3FailDeps nativeSec cHome c3Args c3State [cTarget]
    rfl rfl).1 rfl

end HyprAgent

namespace HyprAgent

theorem classifyTrimmed_raw (n : Nat) (r t : Str) : (classifyTrimmed n r t).raw = r := by
  unfold classifyTrimmed
  repeat' split
  all_goals rfl

theorem classifyLine_raw (n : Nat) (r : Str) : (classifyLine n r).raw = r :=
  classifyTrimmed_raw n r (goTrimSpace r)

theorem unscan_cons (p : Str) (rest : List Str) :
    unscan (p :: rest) = p ++ '\n' :: unscan rest := by
  simp [unscan]

theorem irString_parseLines : ∀ (n : Nat) (rs : List Str),
    irString (parseLines n rs) = unscan rs := by
  intro n rs
  induction rs generalizing n with
  | nil => rfl
  | cons r rest ih =>
    show irString (classifyLine (n + 1) r :: parseLines (n + 1) rest) = unscan (r :: rest)
    rw [unscan_cons]
    unfold irString
    simp only [List.map_cons, List.flatten_cons, classifyLine_raw]
    unfold irString at ih
    rw [ih (n + 1)]
    simp [unscan]

theorem splitSep_sepConcat (c : Char) : ∀ (a b : Str), c ∉ a →
    splitSep c (a ++ c :: b) = a :: splitSep c b := by
  intro a
  induction a with
  | nil => intro b _; simp [splitSep]
  | cons x rest ih =>
    intro b hc
    have hx : ¬ x = c := fun h => hc (h ▸ List.mem_cons_self x rest)
    have hrest : c ∉ rest := fun h => hc (List.mem_cons_of_mem x h)
    show splitSep c (x :: (rest ++ c :: b)) = (x :: rest) :: splitSep c b
    rw [splitSep, if_neg hx, ih b hrest]

theorem splitSep_unscan : ∀ (parts : List Str), (∀ p ∈ parts, '\n' ∉ p) →
    splitSep '\n' (unscan parts) = parts ++ [[]] := by
  intro parts
  induction parts with
  | nil => intro _; rfl
  | cons p rest ih =>
    intro h
    rw [unscan_cons,
      splitSep_sepConcat '\n' p (unscan rest) (h p (List.mem_cons_self p rest)),
      ih (fun q hq => h q (List.mem_cons_of_mem p hq))]
    rfl

theorem unscan_ne_nil (p : Str) (rest : List Str) : unscan (p :: rest) ≠ [] := by
  rw [unscan_cons]
  intro hcontra
  cases p with
  | nil => cases hcontra
  | cons x xs => cases hcontra

theorem dropCR_of_no_cr (p : Str) (h : p.getLast? ≠ some '\r') : dropCR p = p := by
  unfold dropCR
  rw [if_neg h]

theorem scanLines_unscan (parts : List Str)
    (h : ∀ p ∈ parts, '\n' ∉ p ∧ p.getLast? ≠ some '\r') :
    scanLines (unscan parts) = parts := by
  cases parts with
  | nil => rfl
  | cons p rest =>
    have h1 := splitSep_unscan (p :: rest) (fun q hq => (h q hq).1)
    have h2 : ((p :: rest) ++ [[]] : List Str).getLast? = some [] := List.getLast?_concat _
    simp only [scanLines, if_neg (unscan_ne_nil p rest), h1, h2, if_pos, List.dropLast_concat]
    exact (List.map_congr_left
      (fun q hq => dropCR_of_no_cr q ((h q hq).2))).trans (List.map_id _)

end HyprAgent

namespace HyprAgent

def cNoNewline : Str := "a=1".data

/-- C4 counterexample: parsing the text `a=1` (no trailing newline) and
re-serializing the unmodified IR appends a newline — `IR.String` writes
`"\n"` after every line while `bufio.Scanner` accepted the final unterminated
line — so the round-trip is not byte-for-byte on inputs without a trailing
newline, which the claim explicitly includes. -/
theorem c4_counterexample :
    irString (parseText cNoNewline) = cNoNewline ++ ['\n'] ∧
    irString (parseText cNoNewline) ≠ cNoNewline := by
  refine ⟨by decide, by decide⟩

/-- C4 (amended): for every input text consisting of newline-terminated
lines none of which ends in a carriage return — equivalently, every text
that is empty or ends in `'\n'` and has no `"\r\n"` — parsing into the IR
and re-serializing the unmodified IR reproduces the input byte-for-byte.
(For an input whose final line is unterminated, re-serialization appends a
newline; a `"\r\n"` loses its `'\r'`.) -/
theorem c4_roundtrip (parts : List Str)
    (h : ∀ p ∈ parts, '\n' ∉ p ∧ p.getLast? ≠ some '\r') :
    irString (parseText (unscan parts)) = unscan parts := by
  unfold parseText
  rw [scanLines_unscan parts h, irString_parseLines]

def c4Parts : List Str :=
  ["$mod = SUPER".data, [], "# comment".data, "general \x7b".data, "\x7d".data]

/-- C4 witness: the round-trip law at a concrete five-line config. -/
theorem c4_witness : irString (parseText (unscan c4Parts)) = unscan c4Parts :=
  c4_roundtrip c4Parts (by decide)

end HyprAgent

namespace HyprAgent

/-! ### C5 — path-resolution lemmas for the security gate and file tools -/


/-- A plain path element: non-empty, not `.` or `..`, and slash-free. -/
def IsNormalSeg (s : Str) : Prop :=
  s ≠ [] ∧ s ≠ ['.'] ∧ s ≠ ['.', '.'] ∧ '/' ∉ s

instance (s : Str) : Decidable (IsNormalSeg s) := by
  unfold IsNormalSeg
  infer_instance

theorem splitSep_ne_nil (c : Char) (s : Str) : splitSep c s ≠ [] := by
  cases s with
  | nil => simp [splitSep]
  | cons x rest =>
    unfold splitSep
    split
    · simp
    · split
      · simp
      · simp

theorem splitSep_append (c : Char) : ∀ (a b : Str),
    splitSep c (a ++ c :: b) = splitSep c a ++ splitSep c b := by
  intro a
  induction a with
  | nil => intro b; simp [splitSep]
  | cons x rest ih =>
    intro b
    by_cases hx : x = c
    · subst hx
      show splitSep x (x :: (rest ++ x :: b)) = splitSep x (x :: rest) ++ splitSep x b
      rw [splitSep, if_pos rfl, ih b, splitSep, if_pos rfl]
      rfl
    · show splitSep c (x :: (rest ++ c :: b)) = splitSep c (x :: rest) ++ splitSep c b
      rw [splitSep, if_neg hx, ih b]
      rw [splitSep, if_neg hx]
      obtain ⟨q, qs, hq⟩ : ∃ q qs, splitSep c rest = q :: qs := by
        cases hsr : splitSep c rest with
        | nil => exact absurd hsr (splitSep_ne_nil c rest)
        | cons q qs => exact ⟨q, qs, rfl⟩
      rw [hq]
      rfl

theorem splitSep_no_sep (c : Char) : ∀ (s : Str), c ∉ s → splitSep c s = [s] := by
  intro s
  induction s with
  | nil => intro _; rfl
  | cons x rest ih =>
    intro h
    have hx : ¬ x = c := fun hh => h (hh ▸ List.mem_cons_self x rest)
    rw [splitSep, if_neg hx, ih (fun hm => h (List.mem_cons_of_mem x hm))]

theorem joinSep_concat (c : Char) : ∀ (xs : List Str) (x : Str), xs ≠ [] →
    joinSep c (xs ++ [x]) = joinSep c xs ++ c :: x := by
  intro xs
  induction xs with
  | nil => intro x h; exact absurd rfl h
  | cons y ys ih =>
    intro x _
    cases ys with
    | nil => rfl
    | cons z zs =>
      rw [show joinSep c (y :: z :: zs ++ [x]) = y ++ c :: joinSep c (z :: zs ++ [x]) from rfl]
      rw [ih x (by simp)]
      rw [show joinSep c (y :: z :: zs) = y ++ c :: joinSep c (z :: zs) from rfl]
      simp

theorem cleanStep_normal (rooted : Bool) (stack : List Str) (s : Str) (hs : IsNormalSeg s) :
    cleanStep rooted stack s = s :: stack := by
  unfold cleanStep
  rw [if_neg (by simp [hs.1, hs.2.1]), if_neg hs.2.2.1]

theorem isAbs_append (p q : Str) (h : p ≠ []) : isAbs (p ++ q) = isAbs p := by
  cases p with
  | nil => exact absurd rfl h
  | cons x xs => rfl

theorem goClean_append_seg (p s : Str) (hp : goClean p = p) (hs : IsNormalSeg s)
    (hd : p ≠ ['.']) (hr : p ≠ ['/']) :
    goClean (p ++ '/' :: s) = p ++ '/' :: s := by
  have hpne : p ≠ [] := by
    intro h
    subst h
    revert hp
    decide
  have hsplit : splitSep '/' (p ++ '/' :: s) = splitSep '/' p ++ [s] := by
    rw [splitSep_append, splitSep_no_sep '/' s hs.2.2.2]
  unfold goClean at hp ⊢
  rw [isAbs_append p ('/' :: s) hpne, hsplit, List.foldl_append]
  cases hab : isAbs p with
  | true =>
    rw [hab] at hp
    rw [show ∀ (σ : List Str), List.foldl (cleanStep true) σ [s] = cleanStep true σ s
        from fun σ => rfl]
    rw [cleanStep_normal _ _ _ hs]
    have hσne : (splitSep '/' p).foldl (cleanStep true) [] ≠ [] := by
      intro h0
      rw [h0] at hp
      exact hr (by rw [← hp]; rfl)
    set σ := (splitSep '/' p).foldl (cleanStep true) [] with hσdef
    have hrevne : σ.reverse ≠ [] := fun h0 => hσne (List.reverse_eq_nil_iff.mp h0)
    unfold renderPath at hp ⊢
    rw [if_pos rfl] at hp ⊢
    rw [List.reverse_cons, joinSep_concat '/' σ.reverse s hrevne, ← hp]
    rfl
  | false =>
    rw [hab] at hp
    rw [show ∀ (σ : List Str), List.foldl (cleanStep false) σ [s] = cleanStep false σ s
        from fun σ => rfl]
    rw [cleanStep_normal _ _ _ hs]
    have hσne : (splitSep '/' p).foldl (cleanStep false) [] ≠ [] := by
      intro h0
      rw [h0] at hp
      exact hd (by rw [← hp]; rfl)
    set σ := (splitSep '/' p).foldl (cleanStep false) [] with hσdef
    have hrevne : σ.reverse ≠ [] := fun h0 => hσne (List.reverse_eq_nil_iff.mp h0)
    unfold renderPath at hp ⊢
    rw [if_neg (by simp)] at hp ⊢
    rw [if_neg hσne] at hp
    rw [if_neg (by simp : ¬ (s :: σ) = [])]
    rw [List.reverse_cons, joinSep_concat '/' σ.reverse s hrevne, hp]


theorem abs_ne_dot (q : Str) (h : isAbs q = true) : q ≠ ['.'] := by
  intro h0
  subst h0
  revert h
  decide

theorem abs_ne_nil (q : Str) (h : isAbs q = true) : q ≠ [] := by
  intro h0
  subst h0
  revert h
  decide

theorem append_seg_ne_self (p s : Str) : p ++ '/' :: s ≠ p := by
  intro h
  have := congrArg List.length h
  simp at this

theorem append_seg_ne_dot (p s : Str) (hs : s ≠ []) : p ++ '/' :: s ≠ ['.'] := by
  intro h
  have hs0 : s.length ≠ 0 := fun h0 => hs (List.eq_nil_of_length_eq_zero h0)
  have hl := congrArg List.length h
  simp only [List.length_append, List.length_cons, List.length_nil] at hl
  omega

theorem append_seg_ne_root (p s : Str) (hs : s ≠ []) : p ++ '/' :: s ≠ ['/'] := by
  intro h
  have hs0 : s.length ≠ 0 := fun h0 => hs (List.eq_nil_of_length_eq_zero h0)
  have hl := congrArg List.length h
  simp only [List.length_append, List.length_cons, List.length_nil] at hl
  omega

theorem goClean_abs_single (s : Str) (hs : IsNormalSeg s) : goClean ('/' :: s) = '/' :: s := by
  unfold goClean
  have h1 : isAbs ('/' :: s) = true := rfl
  rw [h1]
  rw [show splitSep '/' ('/' :: s) = [] :: splitSep '/' s from by rw [splitSep, if_pos rfl]]
  rw [splitSep_no_sep '/' s hs.2.2.2]
  rw [show List.foldl (cleanStep true) [] [[], s] = cleanStep true (cleanStep true [] []) s
      from rfl]
  rw [show cleanStep true [] ([] : Str) = [] from rfl]
  rw [cleanStep_normal _ _ _ hs]
  rfl

theorem goClean_root_two (s : Str) (hs : IsNormalSeg s) :
    goClean ('/' :: '/' :: s) = '/' :: s := by
  unfold goClean
  have h1 : isAbs ('/' :: '/' :: s) = true := rfl
  rw [h1]
  rw [show splitSep '/' ('/' :: '/' :: s) = [] :: [] :: splitSep '/' s from by
    rw [splitSep, if_pos rfl, splitSep, if_pos rfl]]
  rw [splitSep_no_sep '/' s hs.2.2.2]
  rw [show List.foldl (cleanStep true) [] [[], [], s] =
      cleanStep true (cleanStep true (cleanStep true [] []) []) s from rfl]
  rw [show cleanStep true [] ([] : Str) = [] from rfl]
  rw [show cleanStep true [] ([] : Str) = [] from rfl]
  rw [cleanStep_normal _ _ _ hs]
  rfl

theorem goJoin_two (q s : Str) (hq : goClean q = q) (habs : isAbs q = true)
    (hs : IsNormalSeg s) :
    goJoin [q, s] = if q = ['/'] then '/' :: s else q ++ '/' :: s := by
  have hqne := abs_ne_nil q habs
  unfold goJoin
  rw [show List.filter (· ≠ []) [q, s] = [q, s] from by
    simp [List.filter, hqne, hs.1]]
  show goClean (joinSep '/' [q, s]) = if q = ['/'] then '/' :: s else q ++ '/' :: s
  rw [show joinSep '/' [q, s] = q ++ '/' :: s from rfl]
  by_cases hq' : q = ['/']
  · subst hq'
    rw [if_pos rfl]
    exact goClean_root_two s hs
  · rw [if_neg hq']
    exact goClean_append_seg q s hq hs (abs_ne_dot q habs) hq'

theorem configRoot_spec (home : Str) (h1 : isAbs home = true) (h2 : goClean home = home)
    (h3 : home ≠ ['/']) :
    configRoot home = (home ++ '/' :: sConfigSeg) ++ '/' :: sHyprSeg ∧
    goClean (configRoot home) = configRoot home ∧
    isAbs (configRoot home) = true ∧
    configRoot home ≠ ['/'] ∧ configRoot home ≠ ['.'] := by
  have hcseg : IsNormalSeg sConfigSeg := by decide
  have hhseg : IsNormalSeg sHyprSeg := by decide
  have hne := abs_ne_nil home h1
  have hstep1 : goClean (home ++ '/' :: sConfigSeg) = home ++ '/' :: sConfigSeg :=
    goClean_append_seg home sConfigSeg h2 hcseg (abs_ne_dot home h1) h3
  have hstep1abs : isAbs (home ++ '/' :: sConfigSeg) = true := by
    rw [isAbs_append home _ hne]; exact h1
  have hstep2 : goClean ((home ++ '/' :: sConfigSeg) ++ '/' :: sHyprSeg) =
      (home ++ '/' :: sConfigSeg) ++ '/' :: sHyprSeg :=
    goClean_append_seg _ sHyprSeg hstep1 hhseg
      (append_seg_ne_dot home sConfigSeg (by decide))
      (append_seg_ne_root home sConfigSeg (by decide))
  have hmain : configRoot home = (home ++ '/' :: sConfigSeg) ++ '/' :: sHyprSeg := by
    unfold configRoot goJoin
    rw [show List.filter (· ≠ []) [home, sConfigSeg, sHyprSeg] = [home, sConfigSeg, sHyprSeg]
        from by simp [List.filter, hne, hcseg.1, hhseg.1]]
    show goClean (joinSep '/' [home, sConfigSeg, sHyprSeg]) =
      (home ++ '/' :: sConfigSeg) ++ '/' :: sHyprSeg
    rw [show joinSep '/' [home, sConfigSeg, sHyprSeg] =
        (home ++ '/' :: sConfigSeg) ++ '/' :: sHyprSeg from by
      rw [show joinSep '/' [home, sConfigSeg, sHyprSeg] =
          home ++ '/' :: joinSep '/' [sConfigSeg, sHyprSeg] from rfl]
      rw [show joinSep '/' [sConfigSeg, sHyprSeg] = sConfigSeg ++ '/' :: sHyprSeg from rfl]
      simp]
    exact hstep2
  refine ⟨hmain, by rw [hmain]; exact hstep2, ?_, ?_, ?_⟩
  · rw [hmain, isAbs_append _ _ (by simp [hne])]
    exact hstep1abs
  · rw [hmain]
    exact append_seg_ne_root _ sHyprSeg (by decide)
  · rw [hmain]
    exact append_seg_ne_dot _ sHyprSeg (by decide)


theorem relCore_self_append : ∀ (segs : List Str) (f : Str),
    relCore segs (segs ++ [f]) = some f := by
  intro segs
  induction segs with
  | nil => intro f; rfl
  | cons b bs ih =>
    intro f
    show relCore (b :: bs) (b :: (bs ++ [f])) = some f
    rw [relCore]
    rw [if_pos rfl]
    exact ih f

theorem absSegs_append_seg (root f : Str) (habs : isAbs root = true)
    (hroot : root ≠ ['/']) (hf : IsNormalSeg f) :
    absSegs (root ++ '/' :: f) = absSegs root ++ [f] := by
  obtain ⟨rest, hrest⟩ : ∃ rest, root = '/' :: rest := by
    cases root with
    | nil => cases habs
    | cons x xs =>
      have hx : x = '/' := by
        have : (decide (x = '/')) = true := habs
        exact of_decide_eq_true this
      exact ⟨xs, by rw [hx]⟩
  subst hrest
  have hrne : rest ≠ [] := fun h0 => hroot (by rw [h0])
  show absSegs ('/' :: (rest ++ '/' :: f)) = absSegs ('/' :: rest) ++ [f]
  unfold absSegs
  rw [if_pos (by rfl : isAbs ('/' :: (rest ++ '/' :: f)) = true)]
  rw [if_pos (by rfl : isAbs ('/' :: rest) = true)]
  show (if (rest ++ '/' :: f) = [] then [] else splitSep '/' (rest ++ '/' :: f)) =
    (if rest = [] then [] else splitSep '/' rest) ++ [f]
  rw [if_neg (by simp [hrne] : ¬ (rest ++ '/' :: f) = []), if_neg hrne]
  rw [splitSep_append, splitSep_no_sep '/' f hf.2.2.2]

theorem goRel_append_seg (root f : Str) (hclean : goClean root = root)
    (habs : isAbs root = true) (hroot : root ≠ ['/']) (hf : IsNormalSeg f) :
    goRel root (root ++ '/' :: f) = some f := by
  unfold goRel
  rw [hclean, goClean_append_seg root f hclean hf (abs_ne_dot root habs) hroot]
  rw [if_neg (Ne.symm (append_seg_ne_self root f))]
  rw [isAbs_append root _ (abs_ne_nil root habs), habs]
  rw [if_neg (by simp)]
  rw [absSegs_append_seg root f habs hroot hf]
  exact relCore_self_append (absSegs root) f

theorem authResolve_rel_seg (home f : Str) (h1 : isAbs home = true)
    (h2 : goClean home = home) (h3 : home ≠ ['/'])
    (hf : IsNormalSeg f) (hfrel : isAbs f = false) :
    authResolve home f = configRoot home ++ '/' :: f := by
  obtain ⟨_, hrc, hra, hrr, _⟩ := configRoot_spec home h1 h2 h3
  unfold authResolve
  rw [if_neg (by rw [hfrel]; simp)]
  rw [goJoin_two (configRoot home) f hrc hra hf, if_neg hrr]
  exact goClean_append_seg _ f hrc hf (abs_ne_dot _ hra) hrr

theorem osResolve_rel_seg (cwd f : Str) (hcabs : isAbs cwd = true)
    (hcclean : goClean cwd = cwd) (hf : IsNormalSeg f) (hfrel : isAbs f = false) :
    osResolve cwd f = if cwd = ['/'] then '/' :: f else cwd ++ '/' :: f := by
  unfold osResolve
  rw [if_neg (by rw [hfrel]; simp)]
  rw [goJoin_two cwd f hcclean hcabs hf]
  by_cases hc : cwd = ['/']
  · subst hc
    exact goClean_abs_single f hf
  · rw [if_neg hc]
    exact goClean_append_seg cwd f hcclean hf (abs_ne_dot cwd hcabs) hc

/-- Under the Native policy, the bare relative path `hyprland.conf` is
authorized for every home directory: it resolves to
`configRoot/hyprland.conf` and matches the first allowed file. -/
theorem hyprlandConf_allowed (home : Str) (h1 : isAbs home = true)
    (h2 : goClean home = home) (h3 : home ≠ ['/']) :
    isPathAllowed nativeSec home sHyprlandConf = .allowed := by
  obtain ⟨_, hrc, hra, hrr, _⟩ := configRoot_spec home h1 h2 h3
  have hseg : IsNormalSeg sHyprlandConf := by decide
  have hres : authResolve home sHyprlandConf = configRoot home ++ '/' :: sHyprlandConf :=
    authResolve_rel_seg home sHyprlandConf h1 h2 h3 hseg rfl
  unfold isPathAllowed
  rw [hres]
  rw [show goHasPref (configRoot home ++ '/' :: sHyprlandConf) (configRoot home) = true from by
    unfold goHasPref
    rw [List.isPrefixOf_iff_prefix]
    exact List.prefix_append _ _]
  rw [if_neg (by simp)]
  rw [goRel_append_seg (configRoot home) sHyprlandConf hrc hra hrr hseg]
  simp [nativeSec]


/-- C5: read-file and list-dir authorize the raw path argument through the
gate — which roots a relative path at the fixed configuration root — but
then hand the same raw string to the OS call, which resolves it against the
process's working directory: every successful read/list returns the content
stored at `osResolve cwd path`.  Consequently the cwd-resolved file agrees
with the root-resolved (authorized) file for *all* accepted relative paths
exactly when the working directory *is* the configuration root. -/
theorem c5_authorization_vs_access (home cwd : Str) (fs : Str → Option Str)
    (dirs : Str → Option (List Str))
    (h1 : isAbs home = true) (h2 : goClean home = home) (h3 : home ≠ ['/'])
    (h4 : isAbs cwd = true) (h5 : goClean cwd = cwd) :
    (∀ p c, readFileExecute nativeSec home cwd fs p = .ok c →
      fs (osResolve cwd p) = some c) ∧
    (∀ p ns, listDirExecute nativeSec home cwd dirs p = .ok ns →
      dirs (osResolve cwd p) = some ns) ∧
    ((∀ p, isAbs p = false → isPathAllowed nativeSec home p = .allowed →
        osResolve cwd p = authResolve home p) ↔ cwd = configRoot home) := by
  obtain ⟨_, hrc, hra, hrr, _⟩ := configRoot_spec home h1 h2 h3
  refine ⟨?_, ?_, ?_, ?_⟩
  · intro p c h
    unfold readFileExecute at h
    cases hal : isPathAllowed nativeSec home p with
    | denied reason => rw [hal] at h; exact nomatch h
    | allowed =>
      rw [hal] at h
      cases hfs : fs (osResolve cwd p) with
      | none => rw [hfs] at h; exact nomatch h
      | some content =>
        rw [hfs] at h
        injection h with h0
        rw [h0]
  · intro p ns h
    unfold listDirExecute at h
    cases hal : isPathAllowed nativeSec home p with
    | denied reason => rw [hal] at h; exact nomatch h
    | allowed =>
      rw [hal] at h
      cases hds : dirs (osResolve cwd p) with
      | none => rw [hds] at h; exact nomatch h
      | some names =>
        rw [hds] at h
        injection h with h0
        rw [h0]
  · intro hall
    have hseg : IsNormalSeg sHyprlandConf := by decide
    have heq := hall sHyprlandConf rfl (hyprlandConf_allowed home h1 h2 h3)
    rw [osResolve_rel_seg cwd sHyprlandConf h4 h5 hseg rfl,
      authResolve_rel_seg home sHyprlandConf h1 h2 h3 hseg rfl] at heq
    by_cases hc : cwd = ['/']
    · rw [if_pos hc] at heq
      exfalso
      have hl := congrArg List.length heq
      simp only [List.length_append, List.length_cons] at hl
      have : (configRoot home).length = 0 := by omega
      exact abs_ne_nil (configRoot home) hra (List.eq_nil_of_length_eq_zero this)
    · rw [if_neg hc] at heq
      exact List.append_cancel_right heq
  · intro hcwd p hrel _
    unfold osResolve authResolve
    rw [if_neg (by rw [hrel]; simp), if_neg (by rw [hrel]; simp), hcwd]

def cTmpDir : Str := "/tmp".data

def c5Fs : Str → Option Str := fun p =>
  if p = "/tmp/hyprland.conf".data then some cGood
  else if p = cTarget then some cBroken else none

def c5Dirs : Str → Option (List Str) := fun p =>
  if p = cTmpDir then some [sHyprlandConf] else none

/-- C5 witness: the theorem at home `/root` and working directory `/tmp`. -/
theorem c5_witness :
    (∀ p c, readFileExecute nativeSec cHome cTmpDir c5Fs p = .ok c →
      c5Fs (osResolve cTmpDir p) = some c) ∧
    (∀ p ns, listDirExecute nativeSec cHome cTmpDir c5Dirs p = .ok ns →
      c5Dirs (osResolve cTmpDir p) = some ns) ∧
    ((∀ p, isAbs p = false → isPathAllowed nativeSec cHome p = .allowed →
        osResolve cTmpDir p = authResolve cHome p) ↔ cTmpDir = configRoot cHome) :=
  c5_authorization_vs_access cHome cTmpDir c5Fs c5Dirs
    (by decide) (by decide) (by decide) (by decide) (by decide)

end HyprAgent
